import Mathlib

/-!
Shallow embedding of the multi-stream detection-to-KPI pipeline
(`src/cameras/camera_manager.py` and `src/analytics/kpi_processor.py`).

Machine floats of the source are modelled as exact rationals (`ℚ`);
Python's `round(x, 2)` is modelled as half-to-even rounding at two
decimal places; timestamps are opaque naturals; Python dicts whose
iteration order matters are modelled as association lists in insertion
order.
-/

namespace CameraManager

/-- A queue/monitoring zone, from the per-camera configuration:
`{'name': …, 'x': …, 'y': …, 'width': …, 'height': …}`. -/
structure Zone where
  name : String
  x : ℚ
  y : ℚ
  width : ℚ
  height : ℚ
deriving Repr, DecidableEq

/-- One detected bounding box as returned by the inference model:
class id, confidence and the `xyxy` box corners. -/
structure Box where
  class_id : ℤ
  confidence : ℚ
  x1 : ℚ
  y1 : ℚ
  x2 : ℚ
  y2 : ℚ
deriving Repr, DecidableEq

/-- The zone-membership test of `process_queue_camera` (lines 255-256):
`zone['x'] <= center_x <= zone['x'] + zone['width'] and
 zone['y'] <= center_y <= zone['y'] + zone['height']` (inclusive bounds). -/
def inZone (z : Zone) (cx cy : ℚ) : Prop :=
  z.x ≤ cx ∧ cx ≤ z.x + z.width ∧ z.y ≤ cy ∧ cy ≤ z.y + z.height

instance (z : Zone) (cx cy : ℚ) : Decidable (inZone z cx cy) := by
  unfold inZone; infer_instance

/-- The inner `for zone in queue_zones: … break` loop of
`process_queue_camera`: scan the declared zones in order and stop at the
first one containing the point. -/
def firstMatchZone (zones : List Zone) (cx cy : ℚ) : Option Zone :=
  match zones with
  | [] => none
  | z :: rest =>
      if inZone z cx cy then some z else firstMatchZone rest cx cy

/-- The zone classifier: name of the first declared zone containing the
point, if any. -/
def classifyZone (zones : List Zone) (cx cy : ℚ) : Option String :=
  (firstMatchZone zones cx cy).map Zone.name

/-- A queue detection record, as appended by `process_queue_camera`
(lines 259-266). -/
structure Detection where
  class_id : ℤ
  confidence : ℚ
  bbox : ℚ × ℚ × ℚ × ℚ
  center : ℚ × ℚ
  zone : String
  timestamp : ℕ
deriving Repr, DecidableEq

/-- The snapshot published for the queue role (lines 270-274). -/
structure QueueSnapshot where
  queue_length : ℕ
  detections : List Detection
  timestamp : ℕ
deriving Repr, DecidableEq

/-- Body of `process_queue_camera` for one detected box: keep only class
0 (person) with `confidence >= confidence_threshold`; if the box center
lies in some queue zone, increment `queue_length` once and append one
detection tagged with the first matching zone (the zone loop breaks);
otherwise leave the accumulators unchanged. -/
def processQueueBox (thr : ℚ) (zones : List Zone) (t : ℕ)
    (acc : ℕ × List Detection) (b : Box) : ℕ × List Detection :=
  if b.class_id = 0 ∧ thr ≤ b.confidence then
    match firstMatchZone zones ((b.x1 + b.x2) / 2) ((b.y1 + b.y2) / 2) with
    | some z =>
        (acc.1 + 1,
         acc.2 ++ [{ class_id := b.class_id, confidence := b.confidence,
                     bbox := (b.x1, b.y1, b.x2, b.y2),
                     center := ((b.x1 + b.x2) / 2, (b.y1 + b.y2) / 2),
                     zone := z.name, timestamp := t }])
    | none => acc
  else acc

/-- `process_queue_camera` (lines 226-277): fold over all boxes returned
by inference for one frame, then publish the queue snapshot. `thr` is
`model_config['person_detection']['confidence_threshold']`; `t` stands
for `datetime.now()`. -/
def processQueueCamera (thr : ℚ) (zones : List Zone) (boxes : List Box)
    (t : ℕ) : QueueSnapshot :=
  let acc := boxes.foldl (processQueueBox thr zones t) (0, [])
  { queue_length := acc.1, detections := acc.2, timestamp := t }

end CameraManager

namespace KPIProcessor

open CameraManager

/-- Python's `round` at integer precision: round half to even. -/
def pyRoundInt (q : ℚ) : ℤ :=
  let f := Int.floor q
  let r := q - (f : ℚ)
  if r < 1/2 then f
  else if 1/2 < r then f + 1
  else if f % 2 = 0 then f else f + 1

/-- Python's `round(x, 2)` on the exact-rational model of floats. -/
def pyRound2 (q : ℚ) : ℚ :=
  (pyRoundInt (q * 100) : ℚ) / 100

/-- `np.mean` over a list of values (exact-rational model).  The source
only calls it on non-empty lists. -/
def npMean (l : List ℚ) : ℚ :=
  l.sum / (l.length : ℚ)

/-- Python's `max(d, key=d.get)` over a dict iterated in insertion
order: scan the entries, replacing the current best only on a strictly
larger value, so the FIRST entry attaining the maximum wins.  Helper:
running best `(bk, bv)`. -/
def pyDictMaxGo (bk : ℕ) (bv : ℕ) : List (ℕ × ℕ) → ℕ × ℕ
  | [] => (bk, bv)
  | (k, v) :: rest =>
      if bv < v then pyDictMaxGo k v rest else pyDictMaxGo bk bv rest

/-- `max(d, key=d.get)` on an insertion-ordered histogram; `none` on an
empty dict (the source guards with `if d:`). -/
def pyDictMax : List (ℕ × ℕ) → Option ℕ
  | [] => none
  | (k, v) :: rest => some (pyDictMaxGo k v rest).1

/-- Modelled from the spec (§4.4 "Peak-hour", the sentence under test in
the tie-break claim): "the histogram key with the maximum value; ties
resolved by lowest hour value".  Written from the spec's words, to be
compared with `pyDictMax`, the embedding of the source. -/
def peakHourSpecLowestTie (h : List (ℕ × ℕ)) : Option ℕ :=
  match (h.map Prod.snd).max? with
  | none => none
  | some m => ((h.filter (fun p => p.2 = m)).map Prod.fst).min?

/-- One entry of `queue_history` / `historical_data['queue_lengths']`:
`{'length': …, 'timestamp': …}`. -/
structure QueueHistEntry where
  length : ℕ
  timestamp : ℕ
deriving Repr, DecidableEq

/-- A `collections.deque(maxlen=cap)` append: the new element goes on
the right; when the deque is full the leftmost (oldest) element is
discarded. -/
def dequeAppend (cap : ℕ) (l : List α) (x : α) : List α :=
  (l ++ [x]).drop (l.length + 1 - cap)

/-- `kpis['customer_flow']` (lines 26-33).  `hourly_entries` is a
`defaultdict(int)` modelled as an association list in insertion order. -/
structure CustomerFlow where
  total_entries : ℕ
  total_exits : ℕ
  current_occupancy : ℕ
  hourly_entries : List (ℕ × ℕ)
  peak_hour : Option ℕ
  average_dwell_time : ℚ
deriving Repr, DecidableEq

/-- `kpis['queue_analytics']` (lines 41-48).  The deque capacity of
`queue_history` is kept as a parameter of the update functions; the
source instantiates it with `maxlen=100`. -/
structure QueueAnalytics where
  current_queue_length : ℕ
  max_queue_length : ℕ
  average_queue_length : ℚ
  average_wait_time : ℚ
  total_customers_served : ℕ
  queue_history : List QueueHistEntry
deriving Repr, DecidableEq

/-- `kpis['staff_metrics']` (lines 49-55). -/
structure StaffMetrics where
  current_staff_count : ℕ
  total_staff_hours : ℚ
  hygiene_compliance_rate : ℚ
  hand_washing_events : ℕ
deriving Repr, DecidableEq

/-- An alert record (lines 281-286, 293-298). -/
structure Alert where
  type : String
  message : String
  severity : String
  timestamp : ℕ
deriving Repr, DecidableEq

/-- `kpis['operational_kpis']` (lines 56-62). -/
structure OperationalKpis where
  service_efficiency : ℚ
  customer_satisfaction_score : ℚ
  peak_hours : List ℕ
  busy_periods : List ℕ
  alerts : List Alert
deriving Repr, DecidableEq

/-- The mutable KPI state (the families the verified claims touch). -/
structure KPIState where
  customer_flow : CustomerFlow
  queue_analytics : QueueAnalytics
  staff_metrics : StaffMetrics
  operational_kpis : OperationalKpis
deriving Repr, DecidableEq

/-- The initial KPI state built in `__init__` (lines 25-63). -/
def initKPIState : KPIState :=
  { customer_flow :=
      { total_entries := 0, total_exits := 0, current_occupancy := 0,
        hourly_entries := [], peak_hour := none, average_dwell_time := 0 },
    queue_analytics :=
      { current_queue_length := 0, max_queue_length := 0,
        average_queue_length := 0, average_wait_time := 0,
        total_customers_served := 0, queue_history := [] },
    staff_metrics :=
      { current_staff_count := 0, total_staff_hours := 0,
        hygiene_compliance_rate := 0, hand_washing_events := 0 },
    operational_kpis :=
      { service_efficiency := 0, customer_satisfaction_score := 0,
        peak_hours := [], busy_periods := [], alerts := [] } }

/-- The capacity of the `queue_history` deque in the source
(`deque(maxlen=100)`, line 47). -/
def queueHistoryMaxlen : ℕ := 100

/-- The queue-role snapshot as consumed by the aggregator:
`queue_data.get('queue_length', 0)` reads an optional key with default
0. -/
structure QueueData where
  queue_length : Option ℕ
deriving Repr, DecidableEq

/-- `update_queue_kpis` (lines 192-224) with the history-deque capacity
`cap` as a parameter (`cap = queueHistoryMaxlen` in the source).  A
falsy/absent `queue_data` (`if not queue_data: return`) leaves the state
unchanged. -/
def updateQueueKpis (cap : ℕ) (s : KPIState) (queue_data : Option QueueData)
    (t : ℕ) : KPIState :=
  match queue_data with
  | none => s
  | some qd =>
      let cur := qd.queue_length.getD 0
      let q0 := s.queue_analytics
      let q1 := { q0 with current_queue_length := cur }
      let entry : QueueHistEntry := { length := cur, timestamp := t }
      let q2 := { q1 with
                  queue_history := dequeAppend cap q1.queue_history entry }
      let q3 :=
        if q2.max_queue_length < cur
        then { q2 with max_queue_length := cur } else q2
      let q4 :=
        if q3.queue_history ≠ [] then
          { q3 with average_queue_length :=
              pyRound2 (npMean (q3.queue_history.map
                (fun e => (e.length : ℚ)))) }
        else q3
      { s with queue_analytics := q4 }

/-- The kitchen-role snapshot as consumed by the aggregator:
`kitchen_data.get('staff_count', 0)`. -/
structure KitchenData where
  staff_count : Option ℕ
deriving Repr, DecidableEq

/-- `update_staff_kpis` (lines 226-244): record the current staff count;
absent/falsy data leaves the state unchanged. -/
def updateStaffKpis (s : KPIState) (kitchen_data : Option KitchenData)
    : KPIState :=
  match kitchen_data with
  | none => s
  | some kd =>
      { s with staff_metrics :=
          { s.staff_metrics with
              current_staff_count := kd.staff_count.getD 0 } }

/-- `update_operational_kpis` (lines 246-269): recompute
`service_efficiency` only when `staff_count > 0 and queue_length > 0`
(where `queue_length` is the stored average queue length), then refresh
the `peak_hours` set from the hourly-entries histogram. -/
def updateOperationalKpis (s : KPIState) : KPIState :=
  let ql := s.queue_analytics.average_queue_length
  let sc := s.staff_metrics.current_staff_count
  let s1 :=
    if 0 < sc ∧ 0 < ql then
      { s with operational_kpis :=
          { s.operational_kpis with
              service_efficiency := pyRound2 (ql / (sc : ℚ)) } }
    else s
  let he := s1.customer_flow.hourly_entries
  if he ≠ [] then
    let avg := npMean (he.map (fun p => (p.2 : ℚ)))
    { s1 with operational_kpis :=
        { s1.operational_kpis with
            peak_hours :=
              (he.filter (fun p => avg * (3/2) < (p.2 : ℚ))).map
                Prod.fst } }
  else s1

/-- `config.get('alert_thresholds', {})`: both thresholds are optional
keys of an optional sub-dict. -/
structure AlertThresholds where
  max_queue_length : Option ℕ
  min_staff_count : Option ℕ
deriving Repr, DecidableEq

/-- The analytics configuration (the keys `check_and_generate_alerts`
reads). -/
structure AnalyticsConfig where
  alert_thresholds : Option AlertThresholds
deriving Repr, DecidableEq

/-- `self.config.get('alert_thresholds', {}).get('max_queue_length', 10)`. -/
def maxQueueThreshold (c : AnalyticsConfig) : ℕ :=
  match c.alert_thresholds with
  | none => 10
  | some t => t.max_queue_length.getD 10

/-- `self.config.get('alert_thresholds', {}).get('min_staff_count', 2)`. -/
def minStaffThreshold (c : AnalyticsConfig) : ℕ :=
  match c.alert_thresholds with
  | none => 2
  | some t => t.min_staff_count.getD 2

/-- The alerts built in one evaluation of `check_and_generate_alerts`
(lines 274-298): a high-severity queue alert when the current queue
length exceeds the configured maximum, then a medium-severity staff
alert when the current staff count is below the configured minimum. -/
def generatedAlerts (c : AnalyticsConfig) (s : KPIState) (t : ℕ)
    : List Alert :=
  let max_queue := maxQueueThreshold c
  let current_queue := s.queue_analytics.current_queue_length
  let queuePart : List Alert :=
    if max_queue < current_queue then
      [{ type := "queue_alert",
         message := "Queue length (" ++ toString current_queue ++
           ") exceeds threshold (" ++ toString max_queue ++ ")",
         severity := "high", timestamp := t }]
    else []
  let min_staff := minStaffThreshold c
  let current_staff := s.staff_metrics.current_staff_count
  let staffPart : List Alert :=
    if current_staff < min_staff then
      [{ type := "staff_alert",
         message := "Staff count (" ++ toString current_staff ++
           ") below minimum (" ++ toString min_staff ++ ")",
         severity := "medium", timestamp := t }]
    else []
  queuePart ++ staffPart

/-- The trimming step of `check_and_generate_alerts` (lines 304-306):
`alerts[-100:]` keeps the most recent 100 entries when the list grew
past 100. -/
def trimAlerts (l : List Alert) : List Alert :=
  if 100 < l.length then l.drop (l.length - 100) else l

/-- `check_and_generate_alerts` (lines 271-309): extend the alert list
with this cycle's alerts, then trim to the most recent 100. -/
def checkAndGenerateAlerts (c : AnalyticsConfig) (s : KPIState) (t : ℕ)
    : KPIState :=
  { s with operational_kpis :=
      { s.operational_kpis with
          alerts := trimAlerts
            (s.operational_kpis.alerts ++ generatedAlerts c s t) } }

/-- The gate-role snapshot; `update_customer_flow_kpis` only tests it
for truthiness. -/
structure GateData where
  person_count : Option ℕ
deriving Repr, DecidableEq

/-- `defaultdict(int)` read access `d[hour]` (line 153): inserts the key
with value 0 when absent, in insertion order. -/
def defaultdictTouch (h : List (ℕ × ℕ)) (k : ℕ) : List (ℕ × ℕ) :=
  if h.any (fun p => p.1 = k) then h else h ++ [(k, 0)]

/-- `update_customer_flow_kpis` (lines 130-161): when gate data is
present, recompute `peak_hour` from the hourly-entries histogram (if
non-empty) with `max(d, key=d.get)`, then touch the current hour's
defaultdict slot.  `hour` stands for `current_time.hour`. -/
def updateCustomerFlowKpis (s : KPIState) (gate_data : Option GateData)
    (hour : ℕ) : KPIState :=
  match gate_data with
  | none => s
  | some _ =>
      let cf0 := s.customer_flow
      let cf1 :=
        if cf0.hourly_entries ≠ [] then
          { cf0 with peak_hour := pyDictMax cf0.hourly_entries }
        else cf0
      let cf2 := { cf1 with
                   hourly_entries := defaultdictTouch cf1.hourly_entries hour }
      { s with customer_flow := cf2 }

/-- A sequence of aggregation cycles in which queue data is present:
fold `update_queue_kpis` over the fed `(queue_length, timestamp)`
pairs, starting from the initial KPI state. -/
def runQueueUpdates (cap : ℕ) (inputs : List (ℕ × ℕ)) : KPIState :=
  inputs.foldl
    (fun s p => updateQueueKpis cap s (some { queue_length := some p.1 }) p.2)
    initKPIState

/-- The KPI state after the first `i` aggregation cycles of an
arbitrary sequence of queue-role inputs (present or absent), from the
initial state with no reset. -/
def queueTrace (cap : ℕ) (inputs : List (Option QueueData × ℕ)) (i : ℕ)
    : KPIState :=
  (inputs.take i).foldl (fun s p => updateQueueKpis cap s p.1 p.2)
    initKPIState

end KPIProcessor

namespace DetectionStore

/-- The four fixed stream roles keyed in `self.detection_data`. -/
inductive Role where
  | parking
  | gate
  | queue
  | kitchen
deriving Repr, DecidableEq

/-- The per-role aggregate snapshot published by a stream worker; for
the store-shape claims only the aggregate count matters. -/
structure RoleSnapshot where
  aggregate_count : ℕ
  timestamp : ℕ
deriving Repr, DecidableEq

/-- A value held in `self.detection_data`: either the initial `[]`
placeholder from `__init__` (lines 33-38) or a published snapshot
dict. -/
inductive DetVal where
  | emptyInit
  | snapshot (s : RoleSnapshot)
deriving Repr, DecidableEq

/-- Python dict assignment `d[k] = v`: replace the value when the key is
present, append the key otherwise (insertion order preserved). -/
def pyDictSet [DecidableEq α] (l : List (α × β)) (k : α) (v : β)
    : List (α × β) :=
  if l.any (fun p => p.1 = k) then
    l.map (fun p => if p.1 = k then (k, v) else p)
  else l ++ [(k, v)]

/-- Python dict lookup `d.get(k)`. -/
def pyDictGet [DecidableEq α] (l : List (α × β)) (k : α) : Option β :=
  (l.find? (fun p => p.1 = k)).map Prod.snd

/-- `self.detection_data` right after `__init__` (lines 33-38): all four
roles present, each mapped to the `[]` placeholder. -/
def initDetectionData : List (Role × DetVal) :=
  [(Role.parking, DetVal.emptyInit), (Role.gate, DetVal.emptyInit),
   (Role.queue, DetVal.emptyInit), (Role.kitchen, DetVal.emptyInit)]

/-- A stream worker's publish step, e.g. line 270:
`self.detection_data['queue'] = {…}`. -/
def publish (st : List (Role × DetVal)) (r : Role) (s : RoleSnapshot)
    : List (Role × DetVal) :=
  pyDictSet st r (DetVal.snapshot s)

/-- Apply a sequence of publishes in order. -/
def publishAll (st : List (Role × DetVal))
    (pubs : List (Role × RoleSnapshot)) : List (Role × DetVal) :=
  pubs.foldl (fun acc p => publish acc p.1 p.2) st

/-- `get_detection_data` (lines 340-342): `self.detection_data.copy()`,
a dict holding the same role-to-value entries. -/
def getDetectionData (st : List (Role × DetVal)) : List (Role × DetVal) :=
  st

/-- The most recent snapshot published for a role, if any. -/
def lastPublished (pubs : List (Role × RoleSnapshot)) (r : Role)
    : Option RoleSnapshot :=
  pubs.foldl (fun acc p => if p.1 = r then some p.2 else acc) none

end DetectionStore

namespace KpiCopy

/-!
Reference model for `get_current_kpis` (lines 311-313), which returns
`self.kpis.copy()`.  Python objects live on a heap; `self.kpis` is a
top-level dict mapping family names to references to the per-family
dicts.  `dict.copy()` builds a NEW top-level dict holding the SAME
references (a shallow copy).  Addresses are heap indices.
-/

/-- A per-family mutable dict, reduced to its scalar fields. -/
abbrev Fam := List (String × Int)

/-- The heap of family objects; a reference is an index into it. -/
abbrev Heap := List Fam

/-- The top-level `self.kpis` dict: family name to heap reference. -/
abbrev KpiTop := List (String × ℕ)

/-- `get_current_kpis` = `self.kpis.copy()`: a fresh top-level dict
holding the same (name, reference) entries as the internal one at call
time.  The caller's value is henceforth independent of the internal
top-level dict but shares every referenced family object. -/
def getCurrentKpis (top : KpiTop) : KpiTop :=
  top

/-- Set one scalar field of a family dict in place. -/
def famSetField (f : Fam) (k : String) (v : Int) : Fam :=
  DetectionStore.pyDictSet f k v

/-- An in-place mutation of the family object at address `a`, e.g.
`self.kpis['queue_analytics']['current_queue_length'] = …`. -/
def heapMutate (h : Heap) (a : ℕ) (g : Fam → Fam) : Heap :=
  h.set a (g (h.getD a []))

/-- Dereference a family through a top-level dict: look the name up,
then follow the reference into the heap.  This is what a holder of any
top-level dict (the internal one or a returned copy) observes. -/
def viewFam (h : Heap) (top : KpiTop) (nm : String) : Option Fam :=
  (DetectionStore.pyDictGet top nm).bind (fun a => h[a]?)

/-- Rebinding a family slot of the internal top-level dict to a freshly
allocated object (`self.kpis[nm] = {…}`): extend the heap and point the
internal entry at the new address. -/
def reassignFam (h : Heap) (top : KpiTop) (nm : String) (f : Fam)
    : Heap × KpiTop :=
  (h ++ [f], DetectionStore.pyDictSet top nm h.length)

end KpiCopy

namespace CameraManager

lemma firstMatchZone_eq_find (zones : List Zone) (cx cy : ℚ) :
    firstMatchZone zones cx cy =
      zones.find? (fun z => decide (inZone z cx cy)) := by
  induction zones with
  | nil => rfl
  | cons z rest ih =>
      rw [firstMatchZone, List.find?_cons]
      by_cases h : inZone z cx cy
      · simp [h]
      · simp [h, ih]

/-- C3: for every declared zone list and every detection center point,
the zone classifier returns the name of the first zone in declaration
order whose rectangle contains the point (inclusive bounds), and returns
no match exactly when no zone contains the point (in particular for an
empty zone list); on overlap the first-declared zone wins. -/
theorem zone_classification_first_match (zones : List Zone) (cx cy : ℚ) :
    (classifyZone zones cx cy = none ↔ ∀ z ∈ zones, ¬ inZone z cx cy) ∧
    (∀ n : String, classifyZone zones cx cy = some n ↔
      ∃ i, ∃ hi : i < zones.length,
        inZone (zones.get ⟨i, hi⟩) cx cy ∧ (zones.get ⟨i, hi⟩).name = n ∧
        ∀ j, (hj : j < i) →
          ¬ inZone (zones.get ⟨j, Nat.lt_trans hj hi⟩) cx cy) := by
  constructor
  · rw [classifyZone, firstMatchZone_eq_find, Option.map_eq_none']
    rw [List.find?_eq_none]
    simp
  · intro n
    rw [classifyZone, firstMatchZone_eq_find, Option.map_eq_some']
    constructor
    · rintro ⟨z, hz, rfl⟩
      rw [List.find?_eq_some_iff_getElem] at hz
      obtain ⟨hpz, i, hi, hzi, hbefore⟩ := hz
      refine ⟨i, hi, ?_, ?_, ?_⟩
      · simpa [List.get_eq_getElem, hzi] using hpz
      · simp [List.get_eq_getElem, hzi]
      · intro j hj
        have := hbefore j hj
        simpa [List.get_eq_getElem] using this
    · rintro ⟨i, hi, hin, hname, hbefore⟩
      refine ⟨zones.get ⟨i, hi⟩, ?_, hname⟩
      rw [List.find?_eq_some_iff_getElem]
      refine ⟨by simpa using hin, i, hi, by simp [List.get_eq_getElem], ?_⟩
      intro j hjlen
      have := hbefore j hjlen
      simpa [List.get_eq_getElem] using this

/-- Witness for C3: the spec scenario — overlapping zones A (declared
first) and B both contain the point (5,5); classification returns A. -/
theorem zone_classification_first_match_witness :
    classifyZone
      [{ name := "A", x := 0, y := 0, width := 10, height := 10 },
       { name := "B", x := 0, y := 0, width := 20, height := 20 }]
      5 5 = some "A" := by
  refine ((zone_classification_first_match _ 5 5).2 "A").mpr ?_
  refine ⟨0, by norm_num, ?_, rfl, ?_⟩
  · show inZone { name := "A", x := 0, y := 0, width := 10, height := 10 } 5 5
    exact ⟨by norm_num, by norm_num, by norm_num, by norm_num⟩
  · intro j hj
    exact absurd hj (Nat.not_lt_zero j)

lemma processQueueBox_foldl_spec (thr : ℚ) (zones : List Zone) (t : ℕ) :
    ∀ (boxes : List Box) (acc : ℕ × List Detection),
      acc.1 = acc.2.length →
      (∀ d ∈ acc.2, classifyZone zones d.center.1 d.center.2 = some d.zone) →
      ((boxes.foldl (processQueueBox thr zones t) acc).1 =
        (boxes.foldl (processQueueBox thr zones t) acc).2.length ∧
       (boxes.foldl (processQueueBox thr zones t) acc).2.length ≤
        acc.2.length + boxes.length ∧
       ∀ d ∈ (boxes.foldl (processQueueBox thr zones t) acc).2,
         classifyZone zones d.center.1 d.center.2 = some d.zone) := by
  intro boxes
  induction boxes with
  | nil => intro acc h1 h2; exact ⟨h1, Nat.le_refl _, h2⟩
  | cons b rest ih =>
      intro acc h1 h2
      rw [List.foldl_cons]
      have hstep :
          (processQueueBox thr zones t acc b).1 =
            (processQueueBox thr zones t acc b).2.length ∧
          (processQueueBox thr zones t acc b).2.length ≤ acc.2.length + 1 ∧
          ∀ d ∈ (processQueueBox thr zones t acc b).2,
            classifyZone zones d.center.1 d.center.2 = some d.zone := by
        rw [processQueueBox]
        split
        · split
          · next z heq =>
              refine ⟨by simp [h1], by simp, ?_⟩
              intro d hd
              rcases List.mem_append.mp hd with hd | hd
              · exact h2 d hd
              · have hdet := List.mem_singleton.mp hd
                subst hdet
                simp [classifyZone, heq]
          · exact ⟨h1, Nat.le_succ _, h2⟩
        · exact ⟨h1, Nat.le_succ _, h2⟩
      obtain ⟨g1, g2, g3⟩ := ih (processQueueBox thr zones t acc b) hstep.1 hstep.2.2
      refine ⟨g1, ?_, g3⟩
      calc (rest.foldl (processQueueBox thr zones t)
              (processQueueBox thr zones t acc b)).2.length ≤
            (processQueueBox thr zones t acc b).2.length + rest.length := g2
        _ ≤ (acc.2.length + 1) + rest.length :=
            Nat.add_le_add_right hstep.2.1 _
        _ = acc.2.length + (b :: rest).length := by simp; omega

/-- C10: in every snapshot published by the queue stream worker, the
aggregate `queue_length` equals the length of the snapshot's detections
sequence; each detected person is counted at most once (so the number of
detections never exceeds the number of inference boxes), and every
detection is tagged with the first matching zone of its center. -/
theorem queue_snapshot_consistency (thr : ℚ) (zones : List Zone)
    (boxes : List Box) (t : ℕ) :
    (processQueueCamera thr zones boxes t).queue_length =
      (processQueueCamera thr zones boxes t).detections.length ∧
    (processQueueCamera thr zones boxes t).detections.length ≤
      boxes.length ∧
    ∀ d ∈ (processQueueCamera thr zones boxes t).detections,
      classifyZone zones d.center.1 d.center.2 = some d.zone := by
  have h := processQueueBox_foldl_spec thr zones t boxes (0, []) rfl
    (by intro d hd; exact absurd hd (List.not_mem_nil d))
  exact ⟨h.1, by simpa using h.2.1, h.2.2⟩

/-- Witness for C10: one person whose center lies in two overlapping
zones yields a snapshot with `queue_length = 1 = ` number of
detections. -/
theorem queue_snapshot_consistency_witness :
    (processQueueCamera (1/2)
      [{ name := "A", x := 0, y := 0, width := 10, height := 10 },
       { name := "B", x := 0, y := 0, width := 20, height := 20 }]
      [{ class_id := 0, confidence := 9/10,
         x1 := 4, y1 := 4, x2 := 6, y2 := 6 }] 0).queue_length =
    (processQueueCamera (1/2)
      [{ name := "A", x := 0, y := 0, width := 10, height := 10 },
       { name := "B", x := 0, y := 0, width := 20, height := 20 }]
      [{ class_id := 0, confidence := 9/10,
         x1 := 4, y1 := 4, x2 := 6, y2 := 6 }] 0).detections.length :=
  (queue_snapshot_consistency (1/2) _ _ 0).1

end CameraManager


namespace KPIProcessorTheorems

open KPIProcessor

/-- C5: after every alert-evaluation cycle the alert list's length never
exceeds 100; when appending would exceed 100, the surviving alerts are a
suffix of the old-then-new concatenation (so exactly the oldest are
dropped, FIFO, and the relative order of the retained most-recent alerts
is preserved). -/
theorem alert_list_bounded_fifo (c : AnalyticsConfig) (s : KPIState)
    (t : ℕ) :
    ((checkAndGenerateAlerts c s t).operational_kpis.alerts).length ≤ 100 ∧
    List.IsSuffix ((checkAndGenerateAlerts c s t).operational_kpis.alerts)
      (s.operational_kpis.alerts ++ generatedAlerts c s t) ∧
    ((checkAndGenerateAlerts c s t).operational_kpis.alerts).length =
      min (s.operational_kpis.alerts ++ generatedAlerts c s t).length 100 := by
  have hrw : (checkAndGenerateAlerts c s t).operational_kpis.alerts =
      trimAlerts (s.operational_kpis.alerts ++ generatedAlerts c s t) := rfl
  rw [hrw, trimAlerts]
  split_ifs with h
  · refine ⟨?_, List.drop_suffix _ _, ?_⟩
    · simp; omega
    · simp; omega
  · exact ⟨by omega, List.suffix_refl _, by omega⟩

/-- C6: on every evaluation cycle, exactly one high-severity queue alert
is generated iff the current queue length exceeds the configured
maximum, and exactly one medium-severity staff alert is generated iff
the current staff count is below the configured minimum; the two rules
are independent (the counts hold for every combination of conditions and
every prior state, so they re-fire on successive cycles with no
deduplication), and the cycle appends exactly these alerts before
trimming. -/
theorem alert_rules_per_cycle (c : AnalyticsConfig) (s : KPIState)
    (t : ℕ) :
    ((generatedAlerts c s t).countP
        (fun a => a.severity == "high" && a.type == "queue_alert")) =
      (if maxQueueThreshold c < s.queue_analytics.current_queue_length
       then 1 else 0) ∧
    ((generatedAlerts c s t).countP
        (fun a => a.severity == "medium" && a.type == "staff_alert")) =
      (if s.staff_metrics.current_staff_count < minStaffThreshold c
       then 1 else 0) ∧
    (checkAndGenerateAlerts c s t).operational_kpis.alerts =
      trimAlerts (s.operational_kpis.alerts ++ generatedAlerts c s t) := by
  refine ⟨?_, ?_, rfl⟩ <;>
    · rw [generatedAlerts]
      split_ifs <;> simp [List.countP_cons, List.countP_append]

lemma updateQueueKpis_max_mono (cap : ℕ) (s : KPIState)
    (qd : Option QueueData) (t : ℕ) :
    s.queue_analytics.max_queue_length ≤
      (updateQueueKpis cap s qd t).queue_analytics.max_queue_length := by
  cases qd with
  | none => simp [updateQueueKpis]
  | some q =>
      simp only [updateQueueKpis]
      split_ifs <;> simp <;> omega

lemma updateQueueKpis_cur_le_max (cap : ℕ) (s : KPIState)
    (qd : Option QueueData) (t : ℕ)
    (h : s.queue_analytics.current_queue_length ≤
      s.queue_analytics.max_queue_length) :
    (updateQueueKpis cap s qd t).queue_analytics.current_queue_length ≤
      (updateQueueKpis cap s qd t).queue_analytics.max_queue_length := by
  cases qd with
  | none => simpa [updateQueueKpis] using h
  | some q =>
      simp only [updateQueueKpis]
      split_ifs <;> simp <;> omega

lemma foldl_updateQueueKpis_max_mono (cap : ℕ)
    (l : List (Option QueueData × ℕ)) :
    ∀ s : KPIState,
      s.queue_analytics.max_queue_length ≤
        (l.foldl (fun s p => updateQueueKpis cap s p.1 p.2)
          s).queue_analytics.max_queue_length := by
  induction l with
  | nil => intro s; exact Nat.le_refl _
  | cons p rest ih =>
      intro s
      exact Nat.le_trans (updateQueueKpis_max_mono cap s p.1 p.2)
        (ih (updateQueueKpis cap s p.1 p.2))

lemma foldl_updateQueueKpis_cur_le_max (cap : ℕ)
    (l : List (Option QueueData × ℕ)) :
    ∀ s : KPIState,
      s.queue_analytics.current_queue_length ≤
        s.queue_analytics.max_queue_length →
      (l.foldl (fun s p => updateQueueKpis cap s p.1 p.2)
          s).queue_analytics.current_queue_length ≤
        (l.foldl (fun s p => updateQueueKpis cap s p.1 p.2)
          s).queue_analytics.max_queue_length := by
  induction l with
  | nil => intro s h; exact h
  | cons p rest ih =>
      intro s h
      exact ih (updateQueueKpis cap s p.1 p.2)
        (updateQueueKpis_cur_le_max cap s p.1 p.2 h)

/-- C7: across any sequence of aggregation cycles from the initial KPI
state (queue data present or absent, no reset), `max_queue_length` is
monotonically non-decreasing, and after each completed cycle
`max_queue_length ≥ current_queue_length`. -/
theorem max_queue_monotone (cap : ℕ)
    (inputs : List (Option QueueData × ℕ)) (i j : ℕ) (hij : i ≤ j) :
    (queueTrace cap inputs i).queue_analytics.max_queue_length ≤
      (queueTrace cap inputs j).queue_analytics.max_queue_length ∧
    (queueTrace cap inputs j).queue_analytics.current_queue_length ≤
      (queueTrace cap inputs j).queue_analytics.max_queue_length := by
  have hsplit : inputs.take j =
      inputs.take i ++ ((inputs.take j).drop i) := by
    conv_lhs => rw [← List.take_append_drop i (inputs.take j)]
    rw [List.take_take, Nat.min_eq_left hij]
  constructor
  · rw [queueTrace, queueTrace, hsplit, List.foldl_append]
    exact foldl_updateQueueKpis_max_mono cap _ _
  · rw [queueTrace]
    exact foldl_updateQueueKpis_cur_le_max cap _ _ (Nat.le_refl 0)

/-- Witness for C7 at a concrete trace: queue lengths 5 then 2; the
maximum after cycle 1 bounds into the maximum after cycle 2, which
bounds the final current length. -/
theorem max_queue_monotone_witness :
    (queueTrace 100 [(some { queue_length := some 5 }, 0),
        (some { queue_length := some 2 }, 1)]
      1).queue_analytics.max_queue_length ≤
      (queueTrace 100 [(some { queue_length := some 5 }, 0),
          (some { queue_length := some 2 }, 1)]
        2).queue_analytics.max_queue_length ∧
    (queueTrace 100 [(some { queue_length := some 5 }, 0),
        (some { queue_length := some 2 }, 1)]
      2).queue_analytics.current_queue_length ≤
      (queueTrace 100 [(some { queue_length := some 5 }, 0),
          (some { queue_length := some 2 }, 1)]
        2).queue_analytics.max_queue_length :=
  max_queue_monotone 100 _ 1 2 (by norm_num)

end KPIProcessorTheorems

namespace KPIProcessorTheorems

open KPIProcessor

/-- Counterexample for C1 as stated.  First input: a state with average
queue length 0, staff count 2 (> 0) and previous efficiency 5 — the
claim demands the update write `0 / 2 = 0`, but the code's
`staff_count > 0 and queue_length > 0` guard leaves the previous value 5
in place.  Second input: average 1/100, staff 3 — the code writes the
two-decimal rounding 0, not the exact quotient 1/300. -/
theorem service_efficiency_claim_cex :
    ((updateOperationalKpis
        { initKPIState with
          staff_metrics :=
            { initKPIState.staff_metrics with current_staff_count := 2 },
          operational_kpis :=
            { initKPIState.operational_kpis with
                service_efficiency := 5 } }).operational_kpis.service_efficiency
      = 5) ∧
    (0 : ℕ) < 2 ∧ ((0 : ℚ) / 2 = 0) ∧ ((5 : ℚ) ≠ 0) ∧
    ((updateOperationalKpis
        { initKPIState with
          queue_analytics :=
            { initKPIState.queue_analytics with
                average_queue_length := 1/100 },
          staff_metrics :=
            { initKPIState.staff_metrics with
                current_staff_count := 3 } }).operational_kpis.service_efficiency
      = 0) ∧
    ((1 : ℚ)/100 / 3 ≠ 0) := by
  refine ⟨?_, by norm_num, by norm_num, by norm_num, ?_, by norm_num⟩
  · norm_num [updateOperationalKpis, initKPIState]
  · norm_num [updateOperationalKpis, initKPIState, pyRound2, pyRoundInt]

/-- C1 (amended): `update_operational_kpis` writes
`round(average_queue_length / current_staff_count, 2)` into
`service_efficiency` exactly when both the staff count and the stored
average queue length are positive; in every other case — in particular
whenever the staff count is 0 — the previous value is kept (no division,
no zeroing). -/
theorem service_efficiency_guarded (s : KPIState) :
    (0 < s.staff_metrics.current_staff_count ∧
        0 < s.queue_analytics.average_queue_length →
      (updateOperationalKpis s).operational_kpis.service_efficiency =
        pyRound2 (s.queue_analytics.average_queue_length /
          (s.staff_metrics.current_staff_count : ℚ))) ∧
    (¬ (0 < s.staff_metrics.current_staff_count ∧
        0 < s.queue_analytics.average_queue_length) →
      (updateOperationalKpis s).operational_kpis.service_efficiency =
        s.operational_kpis.service_efficiency) := by
  constructor <;> intro h <;> simp only [updateOperationalKpis] <;>
    split_ifs <;> simp_all

/-- Witness for C1: with average queue length 3 and staff count 2 the
efficiency is updated to `round(3/2, 2)`. -/
theorem service_efficiency_guarded_witness :
    (updateOperationalKpis
      { initKPIState with
        queue_analytics :=
          { initKPIState.queue_analytics with average_queue_length := 3 },
        staff_metrics :=
          { initKPIState.staff_metrics with
              current_staff_count := 2 } }).operational_kpis.service_efficiency
    = pyRound2 ((3 : ℚ) / 2) := by
  have h := (service_efficiency_guarded
    { initKPIState with
      queue_analytics :=
        { initKPIState.queue_analytics with average_queue_length := 3 },
      staff_metrics :=
        { initKPIState.staff_metrics with
            current_staff_count := 2 } }).1 ⟨by norm_num, by norm_num⟩
  simpa using h

end KPIProcessorTheorems

namespace KPIProcessorTheorems

open KPIProcessor

lemma updateQueueKpis_history (cap : ℕ) (s : KPIState) (n t : ℕ) :
    (updateQueueKpis cap s (some { queue_length := some n })
        t).queue_analytics.queue_history =
      dequeAppend cap s.queue_analytics.queue_history
        { length := n, timestamp := t } := by
  simp only [updateQueueKpis]
  split_ifs <;> rfl

lemma updateQueueKpis_average (cap : ℕ) (s : KPIState) (n t : ℕ) :
    (updateQueueKpis cap s (some { queue_length := some n })
        t).queue_analytics.average_queue_length =
      if dequeAppend cap s.queue_analytics.queue_history
          { length := n, timestamp := t } ≠ [] then
        pyRound2 (npMean ((dequeAppend cap s.queue_analytics.queue_history
          { length := n, timestamp := t }).map (fun e => (e.length : ℚ))))
      else s.queue_analytics.average_queue_length := by
  simp only [updateQueueKpis, Option.getD_some]
  split_ifs <;> rfl

lemma updateQueueKpis_ring_inv (cap : ℕ) (s : KPIState) (n t : ℕ)
    (elems : List ℕ)
    (hA : s.queue_analytics.queue_history.map QueueHistEntry.length =
      elems.drop (elems.length - cap))
    (hB : s.queue_analytics.average_queue_length =
      pyRound2 (npMean (s.queue_analytics.queue_history.map
        (fun e => (e.length : ℚ))))) :
    ((updateQueueKpis cap s (some { queue_length := some n })
        t).queue_analytics.queue_history.map QueueHistEntry.length =
      (elems ++ [n]).drop ((elems ++ [n]).length - cap)) ∧
    ((updateQueueKpis cap s (some { queue_length := some n })
        t).queue_analytics.average_queue_length =
      pyRound2 (npMean ((updateQueueKpis cap s
        (some { queue_length := some n })
          t).queue_analytics.queue_history.map (fun e => (e.length : ℚ))))) := by
  have hlen : s.queue_analytics.queue_history.length =
      elems.length - (elems.length - cap) := by
    have h := congrArg List.length hA
    simpa using h
  constructor
  · rw [updateQueueKpis_history, dequeAppend, List.map_drop, List.map_append]
    have hmapentry :
        (List.map QueueHistEntry.length [({ length := n, timestamp := t } :
          QueueHistEntry)]) = [n] := rfl
    rw [hA, hmapentry,
      ← List.drop_append_of_le_length (Nat.sub_le elems.length cap),
      List.drop_drop]
    have hidx : elems.length - cap +
        (s.queue_analytics.queue_history.length + 1 - cap) =
          (elems ++ [n]).length - cap := by
      simp only [List.length_append, List.length_singleton]
      omega
    rw [hidx]
  · rw [updateQueueKpis_average, updateQueueKpis_history]
    split_ifs with h
    · rfl
    · rw [not_ne_iff] at h
      have hcap : cap = 0 := by
        have hl := congrArg List.length h
        simp only [dequeAppend, List.length_drop, List.length_append,
          List.length_singleton, List.length_nil] at hl
        omega
      have hnil : s.queue_analytics.queue_history = [] := by
        have : s.queue_analytics.queue_history.map QueueHistEntry.length = [] := by
          rw [hA, hcap]
          simp
        exact List.map_eq_nil_iff.mp this
      rw [h, hB, hnil]

lemma updateQueueKpis_max (cap : ℕ) (s : KPIState) (n t : ℕ) :
    (updateQueueKpis cap s (some { queue_length := some n })
        t).queue_analytics.max_queue_length =
      if s.queue_analytics.max_queue_length < n then n
      else s.queue_analytics.max_queue_length := by
  simp only [updateQueueKpis, Option.getD_some]
  split_ifs <;> rfl

lemma runQueue_fold_inv (cap : ℕ) (inputs : List (ℕ × ℕ)) :
    ∀ (s : KPIState) (elems : List ℕ),
      (s.queue_analytics.queue_history.map QueueHistEntry.length =
        elems.drop (elems.length - cap)) →
      (s.queue_analytics.average_queue_length =
        pyRound2 (npMean (s.queue_analytics.queue_history.map
          (fun e => (e.length : ℚ))))) →
      (((inputs.foldl (fun s p => updateQueueKpis cap s
          (some { queue_length := some p.1 }) p.2)
            s).queue_analytics.queue_history.map QueueHistEntry.length =
        (elems ++ inputs.map Prod.fst).drop
          ((elems ++ inputs.map Prod.fst).length - cap)) ∧
       ((inputs.foldl (fun s p => updateQueueKpis cap s
          (some { queue_length := some p.1 }) p.2)
            s).queue_analytics.average_queue_length =
        pyRound2 (npMean ((inputs.foldl (fun s p => updateQueueKpis cap s
          (some { queue_length := some p.1 }) p.2)
            s).queue_analytics.queue_history.map
              (fun e => (e.length : ℚ)))))) := by
  induction inputs with
  | nil =>
      intro s elems hA hB
      simpa using ⟨hA, hB⟩
  | cons p rest ih =>
      intro s elems hA hB
      have hstep := updateQueueKpis_ring_inv cap s p.1 p.2 elems hA hB
      have hrec := ih (updateQueueKpis cap s
        (some { queue_length := some p.1 }) p.2) (elems ++ [p.1])
        hstep.1 hstep.2
      simpa [List.append_assoc] using hrec

/-- C2 (amended): after every queue-KPI update, `average_queue_length`
equals the arithmetic mean of the queue lengths retained in the
fixed-capacity history ring, rounded (half to even) to two decimal
places — not the exact mean; the ring always holds the most recent
`cap` samples, so once it exceeds capacity the oldest sample is excluded.
The spec scenario is exact: with capacity 3 and inputs [2, 4, 6, 8] the
average after all four is 6.0 and the maximum is 8. -/
theorem rolling_average_ring_mean (cap : ℕ) (inputs : List (ℕ × ℕ))
    (i : ℕ) :
    ((runQueueUpdates cap (inputs.take (i+1))).queue_analytics.average_queue_length =
      pyRound2 (npMean ((runQueueUpdates cap
        (inputs.take (i+1))).queue_analytics.queue_history.map
          (fun e => (e.length : ℚ))))) ∧
    ((runQueueUpdates cap
        (inputs.take (i+1))).queue_analytics.queue_history.map
          QueueHistEntry.length =
      ((inputs.take (i+1)).map Prod.fst).drop
        (((inputs.take (i+1)).map Prod.fst).length - cap)) ∧
    (runQueueUpdates 3 [(2,0),(4,1),(6,2),(8,3)]).queue_analytics.average_queue_length
      = 6 ∧
    (runQueueUpdates 3 [(2,0),(4,1),(6,2),(8,3)]).queue_analytics.max_queue_length
      = 8 := by
  have hinit_avg : initKPIState.queue_analytics.average_queue_length =
      pyRound2 (npMean (initKPIState.queue_analytics.queue_history.map
        (fun e => (e.length : ℚ)))) := by
    rw [pyRound2, pyRoundInt]
    norm_num [initKPIState, npMean]
  have h := runQueue_fold_inv cap (inputs.take (i+1)) initKPIState []
    (by simp [initKPIState]) hinit_avg
  have hs := runQueue_fold_inv 3 [(2,0),(4,1),(6,2),(8,3)] initKPIState []
    (by simp [initKPIState]) hinit_avg
  have h1 : (runQueueUpdates 3
      [(2,0),(4,1),(6,2),(8,3)]).queue_analytics.queue_history.map
        QueueHistEntry.length = [4, 6, 8] := by
    simpa [runQueueUpdates] using hs.1
  have h2 : (runQueueUpdates 3
      [(2,0),(4,1),(6,2),(8,3)]).queue_analytics.queue_history.map
        (fun e => (e.length : ℚ)) = [(4 : ℚ), 6, 8] := by
    rw [show (fun (e : QueueHistEntry) => (e.length : ℚ)) =
        ((fun k : ℕ => (k : ℚ)) ∘ QueueHistEntry.length) from rfl,
      ← List.map_map, h1]
    norm_num
  refine ⟨by simpa using h.2, by simpa using h.1, ?_, ?_⟩
  · have havg : (runQueueUpdates 3
        [(2,0),(4,1),(6,2),(8,3)]).queue_analytics.average_queue_length =
        pyRound2 (npMean ((runQueueUpdates 3
          [(2,0),(4,1),(6,2),(8,3)]).queue_analytics.queue_history.map
            (fun e => (e.length : ℚ)))) := by
      simpa [runQueueUpdates] using hs.2
    rw [havg, h2, pyRound2, pyRoundInt]
    norm_num [npMean]
  · norm_num [runQueueUpdates, updateQueueKpis_max, initKPIState]

/-- Counterexample for C2 as stated: with the source's ring capacity 100
and queue lengths [0, 1, 1], the stored average is the rounded 0.67
while the exact arithmetic mean of the retained ring is 2/3. -/
theorem rolling_average_exact_mean_cex :
    (runQueueUpdates queueHistoryMaxlen
        [(0,0),(1,1),(1,2)]).queue_analytics.average_queue_length = 67/100 ∧
    npMean ((runQueueUpdates queueHistoryMaxlen
        [(0,0),(1,1),(1,2)]).queue_analytics.queue_history.map
          (fun e => (e.length : ℚ))) = 2/3 ∧
    (67/100 : ℚ) ≠ 2/3 := by
  have hinit_avg : initKPIState.queue_analytics.average_queue_length =
      pyRound2 (npMean (initKPIState.queue_analytics.queue_history.map
        (fun e => (e.length : ℚ)))) := by
    rw [pyRound2, pyRoundInt]
    norm_num [initKPIState, npMean]
  have hs := runQueue_fold_inv 100 [(0,0),(1,1),(1,2)] initKPIState []
    (by simp [initKPIState]) hinit_avg
  have h2 : (runQueueUpdates queueHistoryMaxlen
      [(0,0),(1,1),(1,2)]).queue_analytics.queue_history.map
        (fun e => (e.length : ℚ)) = [(0 : ℚ), 1, 1] := by
    have h1 : (runQueueUpdates queueHistoryMaxlen
        [(0,0),(1,1),(1,2)]).queue_analytics.queue_history.map
          QueueHistEntry.length = [0, 1, 1] := by
      simpa [runQueueUpdates, queueHistoryMaxlen] using hs.1
    rw [show (fun (e : QueueHistEntry) => (e.length : ℚ)) =
        ((fun k : ℕ => (k : ℚ)) ∘ QueueHistEntry.length) from rfl,
      ← List.map_map, h1]
    norm_num
  have havg : (runQueueUpdates queueHistoryMaxlen
      [(0,0),(1,1),(1,2)]).queue_analytics.average_queue_length =
      pyRound2 (npMean ((runQueueUpdates queueHistoryMaxlen
        [(0,0),(1,1),(1,2)]).queue_analytics.queue_history.map
          (fun e => (e.length : ℚ)))) := by
    simpa [runQueueUpdates, queueHistoryMaxlen] using hs.2
  refine ⟨?_, ?_, by norm_num⟩
  · rw [havg, h2, pyRound2, pyRoundInt]
    norm_num [npMean]
  · rw [h2]
    norm_num [npMean]

end KPIProcessorTheorems

namespace KPIProcessorTheorems

open KPIProcessor

lemma pyDictMaxGo_spec (rest : List (ℕ × ℕ)) : ∀ bk bv : ℕ,
    (pyDictMaxGo bk bv rest = (bk, bv) ∧
      ∀ j, (hj : j < rest.length) → (rest.get ⟨j, hj⟩).2 ≤ bv) ∨
    (∃ i, ∃ hi : i < rest.length,
      pyDictMaxGo bk bv rest = rest.get ⟨i, hi⟩ ∧
      bv < (rest.get ⟨i, hi⟩).2 ∧
      (∀ j, (hj : j < rest.length) → j < i →
        (rest.get ⟨j, hj⟩).2 < (rest.get ⟨i, hi⟩).2) ∧
      (∀ j, (hj : j < rest.length) → i < j →
        (rest.get ⟨j, hj⟩).2 ≤ (rest.get ⟨i, hi⟩).2)) := by
  induction rest with
  | nil =>
      intro bk bv
      left
      exact ⟨rfl, fun j hj => absurd hj (Nat.not_lt_zero j)⟩
  | cons p t ih =>
      obtain ⟨k, v⟩ := p
      intro bk bv
      by_cases hbv : bv < v
      · rw [pyDictMaxGo, if_pos hbv]
        rcases ih k v with ⟨heq, hle⟩ | ⟨i, hi, heq, hlt, hbef, haft⟩
        · right
          refine ⟨0, Nat.succ_pos _, ?_, hbv, ?_, ?_⟩
          · rw [heq]
            rfl
          · intro j hj hj0
            exact absurd hj0 (Nat.not_lt_zero j)
          · intro j hj h0j
            cases j with
            | zero => exact absurd h0j (Nat.lt_irrefl 0)
            | succ j2 => exact hle j2 (Nat.lt_of_succ_lt_succ hj)
        · right
          refine ⟨i + 1, Nat.succ_lt_succ hi, heq, Nat.lt_trans hbv hlt,
            ?_, ?_⟩
          · intro j hj hji
            cases j with
            | zero => exact hlt
            | succ j2 =>
                exact hbef j2 (Nat.lt_of_succ_lt_succ hj)
                  (Nat.lt_of_succ_lt_succ hji)
          · intro j hj hij
            cases j with
            | zero => exact absurd hij (Nat.not_lt_zero _)
            | succ j2 =>
                exact haft j2 (Nat.lt_of_succ_lt_succ hj)
                  (Nat.lt_of_succ_lt_succ hij)
      · rw [pyDictMaxGo, if_neg hbv]
        have hvbv : v ≤ bv := Nat.le_of_not_lt hbv
        rcases ih bk bv with ⟨heq, hle⟩ | ⟨i, hi, heq, hlt, hbef, haft⟩
        · left
          refine ⟨heq, ?_⟩
          intro j hj
          cases j with
          | zero => exact hvbv
          | succ j2 => exact hle j2 (Nat.lt_of_succ_lt_succ hj)
        · right
          refine ⟨i + 1, Nat.succ_lt_succ hi, heq, hlt, ?_, ?_⟩
          · intro j hj hji
            cases j with
            | zero => exact Nat.lt_of_le_of_lt hvbv hlt
            | succ j2 =>
                exact hbef j2 (Nat.lt_of_succ_lt_succ hj)
                  (Nat.lt_of_succ_lt_succ hji)
          · intro j hj hij
            cases j with
            | zero => exact absurd hij (Nat.not_lt_zero _)
            | succ j2 =>
                exact haft j2 (Nat.lt_of_succ_lt_succ hj)
                  (Nat.lt_of_succ_lt_succ hij)

lemma pyDictMax_first_max (h : List (ℕ × ℕ)) (hne : h ≠ []) :
    ∃ i, ∃ hi : i < h.length,
      pyDictMax h = some ((h.get ⟨i, hi⟩).1) ∧
      (∀ p ∈ h, p.2 ≤ (h.get ⟨i, hi⟩).2) ∧
      ∀ j, (hj : j < i) →
        (h.get ⟨j, Nat.lt_trans hj hi⟩).2 < (h.get ⟨i, hi⟩).2 := by
  cases h with
  | nil => exact absurd rfl hne
  | cons p t =>
      obtain ⟨k, v⟩ := p
      rcases pyDictMaxGo_spec t k v with ⟨heq, hle⟩ |
        ⟨i, hi, heq, hlt, hbef, haft⟩
      · refine ⟨0, Nat.succ_pos _, ?_, ?_, ?_⟩
        · show some (pyDictMaxGo k v t).1 = some k
          rw [heq]
        · intro q hq
          rcases List.mem_cons.mp hq with rfl | hq
          · exact Nat.le_refl v
          · obtain ⟨⟨j, hj⟩, rfl⟩ := List.mem_iff_get.mp hq
            exact hle j hj
        · intro j hj
          exact absurd hj (Nat.not_lt_zero j)
      · refine ⟨i + 1, Nat.succ_lt_succ hi, ?_, ?_, ?_⟩
        · show some (pyDictMaxGo k v t).1 = some ((t.get ⟨i, hi⟩).1)
          rw [heq]
        · intro q hq
          rcases List.mem_cons.mp hq with rfl | hq
          · exact Nat.le_of_lt hlt
          · obtain ⟨⟨j, hj⟩, rfl⟩ := List.mem_iff_get.mp hq
            rcases Nat.lt_trichotomy j i with hji | rfl | hij
            · exact Nat.le_of_lt (hbef j hj hji)
            · exact Nat.le_refl _
            · exact haft j hj hij
        · intro j hj
          cases j with
          | zero => exact hlt
          | succ j2 =>
              exact hbef j2
                (Nat.lt_trans (Nat.lt_of_succ_lt_succ hj) hi)
                (Nat.lt_of_succ_lt_succ hj)

/-- C4 (amended): for every non-empty hourly histogram, the recomputed
peak hour is a key attaining the maximum entry count, but ties are
resolved by the EARLIEST insertion into the histogram (the first key in
dict iteration order to reach the maximum — every earlier-inserted key
has a strictly smaller count), not by lowest hour value; and
`update_customer_flow_kpis` stores exactly this key as `peak_hour`. -/
theorem peak_hour_first_insertion_max (s : KPIState) (g : GateData)
    (hour : ℕ) (hne : s.customer_flow.hourly_entries ≠ []) :
    ((updateCustomerFlowKpis s (some g) hour).customer_flow.peak_hour =
      pyDictMax s.customer_flow.hourly_entries) ∧
    (∃ i, ∃ hi : i < s.customer_flow.hourly_entries.length,
      pyDictMax s.customer_flow.hourly_entries =
        some ((s.customer_flow.hourly_entries.get ⟨i, hi⟩).1) ∧
      (∀ p ∈ s.customer_flow.hourly_entries,
        p.2 ≤ (s.customer_flow.hourly_entries.get ⟨i, hi⟩).2) ∧
      ∀ j, (hj : j < i) →
        (s.customer_flow.hourly_entries.get ⟨j, Nat.lt_trans hj hi⟩).2 <
          (s.customer_flow.hourly_entries.get ⟨i, hi⟩).2) := by
  constructor
  · simp only [updateCustomerFlowKpis]
    rw [if_pos hne]
  · exact pyDictMax_first_max _ hne

/-- Witness for C4: on the concrete histogram [(9, 3), (14, 7), (20, 7)]
(hour 9 first inserted with count 3, then hours 14 and 20 tied at 7),
the theorem applies and the counts and peak are as computed. -/
theorem peak_hour_first_insertion_max_witness :
    (updateCustomerFlowKpis
      { initKPIState with
          customer_flow := { initKPIState.customer_flow with
                               hourly_entries := [(9, 3), (14, 7), (20, 7)] } }
      (some { person_count := none }) 10).customer_flow.peak_hour =
      pyDictMax [(9, 3), (14, 7), (20, 7)] :=
  (peak_hour_first_insertion_max
    { initKPIState with
        customer_flow := { initKPIState.customer_flow with
                             hourly_entries := [(9, 3), (14, 7), (20, 7)] } }
    { person_count := none } 10 (by decide)).1

/-- Counterexample for C4 as stated: a histogram whose keys were
inserted in the order 23 then 0, both with count 5.  The code's
`max(d, key=d.get)` returns 23 (first inserted), while the claimed
lowest-hour tie-break would return 0. -/
theorem peak_hour_lowest_tie_cex :
    pyDictMax [(23, 5), (0, 5)] = some 23 ∧
    peakHourSpecLowestTie [(23, 5), (0, 5)] = some 0 ∧
    pyDictMax [(23, 5), (0, 5)] ≠ peakHourSpecLowestTie [(23, 5), (0, 5)] := by
  decide

end KPIProcessorTheorems

namespace DetectionStore

lemma pyDictGet_cons [DecidableEq α] (p : α × β) (t : List (α × β))
    (k : α) :
    pyDictGet (p :: t) k = if p.1 = k then some p.2 else pyDictGet t k := by
  rw [pyDictGet, pyDictGet]
  by_cases h : p.1 = k
  · rw [List.find?_cons_of_pos _ (by simpa using h), if_pos h]
    rfl
  · rw [List.find?_cons_of_neg _ (by simpa using h), if_neg h]

lemma pyDictGet_replace_eq [DecidableEq α] (k : α) (v : β) :
    ∀ l : List (α × β), l.any (fun p => p.1 = k) = true →
      pyDictGet (l.map (fun p => if p.1 = k then (k, v) else p)) k =
        some v := by
  intro l
  induction l with
  | nil => intro hmem; simp at hmem
  | cons p t ih =>
      intro hmem
      simp only [List.any_cons, Bool.or_eq_true, decide_eq_true_eq] at hmem
      by_cases hp : p.1 = k
      · simp only [List.map_cons, if_pos hp]
        rw [pyDictGet_cons]
        simp
      · simp only [List.map_cons, if_neg hp]
        rw [pyDictGet_cons, if_neg hp]
        exact ih (hmem.resolve_left hp)

lemma pyDictGet_append_single_eq [DecidableEq α] (k : α) (v : β) :
    ∀ l : List (α × β), (l.any (fun p => p.1 = k)) = false →
      pyDictGet (l ++ [(k, v)]) k = some v := by
  intro l
  induction l with
  | nil =>
      intro _
      rw [List.nil_append, pyDictGet_cons]
      simp
  | cons p t ih =>
      intro hmem
      simp only [List.any_cons, Bool.or_eq_false_iff,
        decide_eq_false_iff_not] at hmem
      rw [List.cons_append, pyDictGet_cons, if_neg hmem.1]
      exact ih (by simpa using hmem.2)

lemma pyDictGet_pyDictSet_eq [DecidableEq α] (l : List (α × β)) (k : α)
    (v : β) : pyDictGet (pyDictSet l k v) k = some v := by
  rw [pyDictSet]
  split_ifs with hmem
  · exact pyDictGet_replace_eq k v l hmem
  · exact pyDictGet_append_single_eq k v l (Bool.eq_false_iff.mpr hmem)

lemma pyDictGet_replace_ne [DecidableEq α] (k k2 : α) (v : β)
    (hne : k2 ≠ k) :
    ∀ l : List (α × β),
      pyDictGet (l.map (fun p => if p.1 = k then (k, v) else p)) k2 =
        pyDictGet l k2 := by
  intro l
  induction l with
  | nil => rfl
  | cons p t ih =>
      by_cases hp : p.1 = k
      · simp only [List.map_cons, if_pos hp]
        rw [pyDictGet_cons, pyDictGet_cons,
          if_neg (show ¬((k, v).1 = k2) from fun hc => hne hc.symm),
          if_neg (show ¬(p.1 = k2) from fun hc => hne (by rw [← hc, hp]))]
        exact ih
      · simp only [List.map_cons, if_neg hp]
        rw [pyDictGet_cons, pyDictGet_cons]
        by_cases hp2 : p.1 = k2
        · rw [if_pos hp2, if_pos hp2]
        · rw [if_neg hp2, if_neg hp2]
          exact ih

lemma pyDictGet_append_single_ne [DecidableEq α] (k k2 : α) (v : β)
    (hne : k2 ≠ k) :
    ∀ l : List (α × β),
      pyDictGet (l ++ [(k, v)]) k2 = pyDictGet l k2 := by
  intro l
  induction l with
  | nil =>
      rw [List.nil_append, pyDictGet_cons,
        if_neg (show ¬((k, v).1 = k2) from fun hc => hne (hc.symm))]
  | cons p t ih =>
      rw [List.cons_append, pyDictGet_cons, pyDictGet_cons]
      by_cases hp2 : p.1 = k2
      · rw [if_pos hp2, if_pos hp2]
      · rw [if_neg hp2, if_neg hp2]
        exact ih

lemma pyDictGet_pyDictSet_ne [DecidableEq α] (l : List (α × β)) (k k2 : α)
    (v : β) (hne : k2 ≠ k) :
    pyDictGet (pyDictSet l k v) k2 = pyDictGet l k2 := by
  rw [pyDictSet]
  split_ifs with hmem
  · exact pyDictGet_replace_ne k k2 v hne l
  · exact pyDictGet_append_single_ne k k2 v hne l

lemma pyDictSet_any [DecidableEq α] (l : List (α × β)) (k r : α) (v : β)
    (hmem : l.any (fun p => p.1 = r) = true) :
    (pyDictSet l k v).any (fun p => p.1 = r) = true := by
  rw [pyDictSet]
  split_ifs with hk
  · simp only [List.any_map, List.any_eq_true] at hmem ⊢
    obtain ⟨p, hp, hpr⟩ := hmem
    refine ⟨p, hp, ?_⟩
    simp only [Function.comp]
    split_ifs with h
    · simp only [decide_eq_true_eq] at hpr ⊢
      rw [← h]
      exact (by simpa using hpr)
    · exact hpr
  · simp [List.any_append, hmem]

lemma lastPublished_foldl_acc (r : Role) (pubs : List (Role × RoleSnapshot)) :
    ∀ a : Option RoleSnapshot,
      pubs.foldl (fun acc q => if q.1 = r then some q.2 else acc) a =
        match pubs.foldl (fun acc q => if q.1 = r then some q.2 else acc)
          none with
        | some x => some x
        | none => a := by
  induction pubs with
  | nil => intro a; rfl
  | cons q t ih =>
      intro a
      rw [List.foldl_cons, List.foldl_cons, ih, ih (if q.1 = r then some q.2 else none)]
      by_cases hq : q.1 = r
      · simp only [if_pos hq]
        cases t.foldl (fun acc q => if q.1 = r then some q.2 else acc) none
          <;> rfl
      · simp only [if_neg hq]
        cases t.foldl (fun acc q => if q.1 = r then some q.2 else acc) none
          <;> rfl

lemma publishAll_get (r : Role) (pubs : List (Role × RoleSnapshot)) :
    ∀ st : List (Role × DetVal),
      st.any (fun p => p.1 = r) = true →
      pyDictGet (publishAll st pubs) r =
        match lastPublished pubs r with
        | some s => some (DetVal.snapshot s)
        | none => pyDictGet st r := by
  induction pubs with
  | nil => intro st _; rfl
  | cons q t ih =>
      intro st hst
      have hstep : publishAll st (q :: t) =
          publishAll (publish st q.1 q.2) t := by
        rw [publishAll, publishAll, List.foldl_cons]
      rw [hstep, ih (publish st q.1 q.2)
        (pyDictSet_any st q.1 r (DetVal.snapshot q.2) hst)]
      have hlast : lastPublished (q :: t) r =
          match lastPublished t r with
          | some x => some x
          | none => if q.1 = r then some q.2 else none := by
        rw [lastPublished]
        simp only [List.foldl_cons]
        rw [lastPublished_foldl_acc r t (if q.1 = r then some q.2 else none)]
        rfl
      rw [hlast]
      cases lastPublished t r with
      | some x => rfl
      | none =>
          by_cases hqr : q.1 = r
          · simp only [if_pos hqr]
            rw [publish, ← hqr, pyDictGet_pyDictSet_eq]
          · simp only [if_neg hqr]
            rw [publish, pyDictGet_pyDictSet_ne st q.1 r
              (DetVal.snapshot q.2) (fun hc => hqr hc.symm)]

/-- Counterexample for C8 as stated: on a freshly initialised store with
no publishes at all, reading all snapshots yields the `gate` role
PRESENT and mapped to the empty-list placeholder — not absent as the
claim requires. -/
theorem detection_store_absent_cex :
    pyDictGet (getDetectionData initDetectionData) Role.gate =
      some DetVal.emptyInit ∧
    pyDictGet (getDetectionData initDetectionData) Role.gate ≠ none := by
  decide

/-- C8 (amended): all four roles are present in the read-out mapping
from initialisation onward; a role that has never been published is
mapped to the empty-list placeholder (`[]` from `__init__`), while a
published role is mapped to its most recent snapshot dict.  The
placeholder differs from every snapshot value (including zero-count
snapshots), so a caller can still distinguish "no snapshot yet" from
"snapshot with zero count" — by the placeholder value, not by absence. -/
theorem detection_store_roles_present (pubs : List (Role × RoleSnapshot))
    (r : Role) :
    (pyDictGet (getDetectionData (publishAll initDetectionData pubs)) r =
      match lastPublished pubs r with
      | some s => some (DetVal.snapshot s)
      | none => some DetVal.emptyInit) ∧
    (∀ s : RoleSnapshot, DetVal.snapshot s ≠ DetVal.emptyInit) := by
  constructor
  · have hpresent : initDetectionData.any (fun p => p.1 = r) = true := by
      cases r <;> decide
    have hinit : pyDictGet initDetectionData r = some DetVal.emptyInit := by
      cases r <;> rfl
    rw [getDetectionData, publishAll_get r pubs initDetectionData hpresent]
    cases lastPublished pubs r with
    | some s => rfl
    | none => exact hinit
  · intro s hc
    exact DetVal.noConfusion hc

end DetectionStore

namespace KpiCopy

/-- Counterexample for C9 as stated: take a snapshot via
`get_current_kpis`, then mutate the internal queue-analytics family in
place (set `current_queue_length` from 0 to 5).  The value read through
the earlier-returned snapshot changes from 0 to 5: nested in-place
mutations ARE observable through a previously returned value, because
`dict.copy()` is shallow. -/
theorem get_current_kpis_deep_copy_cex :
    (viewFam
      (heapMutate [[("current_queue_length", (0 : Int))]] 0
        (fun f => famSetField f "current_queue_length" 5))
      (getCurrentKpis [("queue_analytics", 0)]) "queue_analytics" =
      some [("current_queue_length", (5 : Int))]) ∧
    (viewFam [[("current_queue_length", (0 : Int))]]
      (getCurrentKpis [("queue_analytics", 0)]) "queue_analytics" =
      some [("current_queue_length", (0 : Int))]) ∧
    (viewFam
      (heapMutate [[("current_queue_length", (0 : Int))]] 0
        (fun f => famSetField f "current_queue_length" 5))
      (getCurrentKpis [("queue_analytics", 0)]) "queue_analytics" ≠
     viewFam [[("current_queue_length", (0 : Int))]]
      (getCurrentKpis [("queue_analytics", 0)]) "queue_analytics") := by
  decide

/-- C9 (amended): `get_current_kpis` returns a SHALLOW copy of the
top-level KPI mapping: (a) the returned mapping holds exactly the
internal (family name, reference) entries of call time, so (b) rebinding
a family slot of the internal mapping to a freshly allocated object
afterwards is not observable through the earlier returned value; but (c)
the nested per-family aggregates are shared by reference, so a later
in-place mutation of a family object IS observable through the earlier
returned value. -/
theorem get_current_kpis_shallow_copy (h : Heap) (top : KpiTop)
    (nm nm2 : String) (f : Fam) (a : ℕ) (g : Fam → Fam)
    (hbound : ∀ p ∈ top, p.2 < h.length)
    (href : DetectionStore.pyDictGet top nm = some a) :
    (getCurrentKpis top = top) ∧
    (∀ nmq : String, viewFam ((reassignFam h top nm2 f).1)
        (getCurrentKpis top) nmq = viewFam h top nmq) ∧
    (viewFam (heapMutate h a g) (getCurrentKpis top) nm =
      some (g (h.getD a []))) := by
  refine ⟨rfl, ?_, ?_⟩
  · intro nmq
    simp only [viewFam, getCurrentKpis, reassignFam]
    cases hm : DetectionStore.pyDictGet top nmq with
    | none => rfl
    | some addr =>
        have haddr : addr < h.length := by
          rcases Option.map_eq_some'.mp hm with ⟨p, hfind, rfl⟩
          exact hbound p (List.mem_of_find?_eq_some hfind)
        show (h ++ [f])[addr]? = h[addr]?
        rw [List.getElem?_append, if_pos haddr]
  · have haddr : a < h.length := by
      rcases Option.map_eq_some'.mp href with ⟨p, hfind, rfl⟩
      exact hbound p (List.mem_of_find?_eq_some hfind)
    simp only [viewFam, getCurrentKpis]
    rw [href]
    show (heapMutate h a g)[a]? = some (g (h.getD a []))
    rw [heapMutate]
    simp [List.getElem?_set_self, haddr]

/-- Witness for C9: on the one-family heap, the theorem applies and the
in-place field update is visible through the earlier snapshot. -/
theorem get_current_kpis_shallow_copy_witness :
    viewFam (heapMutate [[("current_queue_length", (0 : Int))]] 0
        (fun f => famSetField f "current_queue_length" 5))
      (getCurrentKpis [("queue_analytics", 0)]) "queue_analytics" =
      some (famSetField ([[("current_queue_length", (0 : Int))]].getD 0 [])
        "current_queue_length" 5) :=
  (get_current_kpis_shallow_copy [[("current_queue_length", (0 : Int))]]
    [("queue_analytics", 0)] "queue_analytics" "queue_analytics"
    [] 0 (fun f => famSetField f "current_queue_length" 5)
    (by decide) (by decide)).2.2

end KpiCopy
